import Mathlib

/-!
Shallow embedding of the startup-time schema-evolution and idempotent
bootstrap subsystem of the SuperLuca backend (`backend/app/main.py`):
the `User` model, `_hash_secret`, `ensure_user_table_schema`,
`init_db` and `seed_admin_user`, together with theorems about their
behaviour on an explicit store state.
-/

namespace SuperLuca

/-! ### SHA-256, modelling `hashlib.sha256(value.encode("utf-8")).hexdigest()`

Machine words are `Nat` reduced modulo `2 ^ 32` explicitly.  Messages are
lists of bytes (`Nat < 256`). -/

def M32 : Nat := 2 ^ 32

/-- Right rotation of a 32-bit word by `n` places. -/
def rotr (n x : Nat) : Nat := (x / 2 ^ n) + (x % 2 ^ n) * 2 ^ (32 - n)

/-- Logical right shift of a 32-bit word by `n` places. -/
def shr (n x : Nat) : Nat := x / 2 ^ n

def ch (x y z : Nat) : Nat := (x &&& y) ^^^ ((x ^^^ 0xffffffff) &&& z)

def maj (x y z : Nat) : Nat := (x &&& y) ^^^ (x &&& z) ^^^ (y &&& z)

def bigSigma0 (x : Nat) : Nat := rotr 2 x ^^^ rotr 13 x ^^^ rotr 22 x

def bigSigma1 (x : Nat) : Nat := rotr 6 x ^^^ rotr 11 x ^^^ rotr 25 x

def smallSigma0 (x : Nat) : Nat := rotr 7 x ^^^ rotr 18 x ^^^ shr 3 x

def smallSigma1 (x : Nat) : Nat := rotr 17 x ^^^ rotr 19 x ^^^ shr 10 x

/-- The 64 SHA-256 round constants. -/
def K256 : List Nat :=
  [1116352408, 1899447441, 3049323471, 3921009573, 961987163, 1508970993,
   2453635748, 2870763221, 3624381080, 310598401, 607225278, 1426881987,
   1925078388, 2162078206, 2614888103, 3248222580, 3835390401, 4022224774,
   264347078, 604807628, 770255983, 1249150122, 1555081692, 1996064986,
   2554220882, 2821834349, 2952996808, 3210313671, 3336571891, 3584528711,
   113926993, 338241895, 666307205, 773529912, 1294757372, 1396182291,
   1695183700, 1986661051, 2177026350, 2456956037, 2730485921, 2820302411,
   3259730800, 3345764771, 3516065817, 3600352804, 4094571909, 275423344,
   430227734, 506948616, 659060556, 883997877, 958139571, 1322822218,
   1537002063, 1747873779, 1955562222, 2024104815, 2227730452, 2361852424,
   2428436474, 2756734187, 3204031479, 3329325298]

/-- SHA-256 working state: eight 32-bit words. -/
structure Sha256State where
  a : Nat
  b : Nat
  c : Nat
  d : Nat
  e : Nat
  f : Nat
  g : Nat
  h : Nat
deriving DecidableEq

/-- The SHA-256 initial hash value. -/
def initState : Sha256State :=
  ⟨1779033703, 3144134277, 1013904242, 2773480762,
   1359893119, 2600822924, 528734635, 1541459225⟩

/-- One SHA-256 compression round, fed a pair of round constant and
schedule word. -/
def shaRound (st : Sha256State) (kw : Nat × Nat) : Sha256State :=
  let t1 := (st.h + bigSigma1 st.e + ch st.e st.f st.g + kw.1 + kw.2) % M32
  let t2 := (bigSigma0 st.a + maj st.a st.b st.c) % M32
  ⟨(t1 + t2) % M32, st.a, st.b, st.c, (st.d + t1) % M32, st.e, st.f, st.g⟩

/-- Group a byte list into big-endian 32-bit words. -/
def bytesToWords : List Nat → List Nat
  | b0 :: b1 :: b2 :: b3 :: rest =>
      (((b0 * 256 + b1) * 256 + b2) * 256 + b3) :: bytesToWords rest
  | _ => []

/-- Extend the 16-word message schedule by `n` further words. -/
def extendLoop (w : List Nat) : Nat → List Nat
  | 0 => w
  | n + 1 =>
      let t := w.length
      let v := (smallSigma1 (w.getD (t - 2) 0) + w.getD (t - 7) 0 +
                smallSigma0 (w.getD (t - 15) 0) + w.getD (t - 16) 0) % M32
      extendLoop (w ++ [v]) n

/-- Compress one 64-byte block into the running hash state. -/
def compressBlock (st : Sha256State) (block : List Nat) : Sha256State :=
  let w := extendLoop (bytesToWords block) 48
  let r := (K256.zip w).foldl shaRound st
  ⟨(st.a + r.a) % M32, (st.b + r.b) % M32, (st.c + r.c) % M32,
   (st.d + r.d) % M32, (st.e + r.e) % M32, (st.f + r.f) % M32,
   (st.g + r.g) % M32, (st.h + r.h) % M32⟩

/-- Split a padded message into 64-byte blocks. -/
def toBlocks : List Nat → List (List Nat)
  | [] => []
  | b :: rest => ((b :: rest).take 64) :: toBlocks ((b :: rest).drop 64)
termination_by l => l.length
decreasing_by simp [List.length_drop]; omega

/-- Big-endian 8-byte encoding of the message bit length. -/
def lenBytes (n : Nat) : List Nat :=
  [n / 2 ^ 56 % 256, n / 2 ^ 48 % 256, n / 2 ^ 40 % 256, n / 2 ^ 32 % 256,
   n / 2 ^ 24 % 256, n / 2 ^ 16 % 256, n / 2 ^ 8 % 256, n % 256]

/-- SHA-256 padding: a `0x80` byte, zeros to 56 mod 64, then the bit length. -/
def padMessage (msg : List Nat) : List Nat :=
  let L := msg.length
  msg ++ [0x80] ++ List.replicate ((119 - L % 64) % 64) 0 ++ lenBytes (L * 8)

def hexChar (n : Nat) : Char :=
  if n < 10 then Char.ofNat (48 + n) else Char.ofNat (87 + n)

/-- Lowercase hexadecimal rendering of one 32-bit word. -/
def wordToHex (n : Nat) : List Char :=
  (List.range 8).map (fun i => hexChar (n / 2 ^ (4 * (7 - i)) % 16))

/-- SHA-256 hex digest of a byte list. -/
def sha256Hex (msg : List Nat) : String :=
  let st := (toBlocks (padMessage msg)).foldl compressBlock initState
  String.mk (wordToHex st.a ++ wordToHex st.b ++ wordToHex st.c ++
             wordToHex st.d ++ wordToHex st.e ++ wordToHex st.f ++
             wordToHex st.g ++ wordToHex st.h)

/-- Embeds `_hash_secret` of `backend/app/main.py`: the deterministic
SHA-256 hex digest of the UTF-8 encoding of the given secret value. -/
def _hash_secret (value : String) : String :=
  sha256Hex (value.toUTF8.toList.map (fun b => b.toNat))

/-! ### Data model

The store state is explicit: the SQLite database either lacks the
`user` table or holds it as a set of column names together with its
rows.  Datetimes are modelled as `Nat` timestamps; the configuration
read from the environment in `seed_admin_user` is a `Config` record
whose fields carry the values of the `ADMIN_*` variables after the
`os.getenv` defaults have been applied (`recoveryKey` is `none` when
`ADMIN_RECOVERY_KEY` is unset). -/

/-- A row of the `user` table, mirroring the `User` SQLModel class. -/
structure User where
  id : Option Nat
  username : String
  email : String
  password_hash : String
  recovery_key_hash : Option String
  role : String
  is_active : Bool
  created_at : Nat
  deleted_at : Option Nat
deriving DecidableEq

/-- The live `user` table: its column-name set and its rows. -/
structure UserTable where
  columns : List String
  rows : List User
deriving DecidableEq

/-- The SQLite store: whether it is reachable at all, and the `user`
table when it exists in the catalog. -/
structure Store where
  reachable : Bool
  table : Option UserTable
deriving DecidableEq

/-- Environment-derived configuration consumed by the bootstrap. -/
structure Config where
  databaseUrl : String
  username : String
  email : String
  password : String
  role : String
  recoveryKey : Option String
deriving DecidableEq

/-- Errors raised by store operations: `storeUnavailable` models a
connection-level failure reaching the store, `operationalError` the
`sqlite3.OperationalError` ("no such column" / "no such table") raised
when a query references a column or table absent from the live schema
— the crash the module docstring documents — and `integrityError` the
uniqueness violation SQLite raises on a duplicate-key insert. -/
inductive StoreError where
  | storeUnavailable
  | operationalError
  | integrityError
deriving DecidableEq

/-- Statement counters observed during one bootstrap run. -/
structure Stats where
  alters : Nat
  inserts : Nat
deriving DecidableEq

/-- The column set of the `User` model metadata. -/
def expectedColumns : List String :=
  ["id", "username", "email", "password_hash", "recovery_key_hash",
   "role", "is_active", "created_at", "deleted_at"]

/-- Embeds `DATABASE_URL.startswith("sqlite")`: the first characters
of the URL are exactly those of `"sqlite"`. -/
def isSqliteUrl (u : String) : Bool := u.data.take 6 == "sqlite".data

/-! ### Operations -/

/-- Embeds `SQLModel.metadata.create_all(engine)`: creates the `user`
table with the full expected column set when it is absent, and leaves
an existing table untouched (`create_all` never adds columns). -/
def create_all (s : Store) : Except StoreError Store :=
  if s.reachable then
    match s.table with
    | none => .ok { s with table := some ⟨expectedColumns, []⟩ }
    | some _ => .ok s
  else .error .storeUnavailable

/-- Embeds lines 71-83 of `ensure_user_table_schema`: connect, check
`sqlite_master` for the `user` table (returning normally when it is
absent), read `PRAGMA table_info`, and issue the single
`ALTER TABLE "user" ADD COLUMN deleted_at DATETIME` when the
`deleted_at` column is missing.  The returned `Nat` counts the ALTER
statements issued. -/
def inspect_and_migrate (s : Store) : Except StoreError (Store × Nat) :=
  if s.reachable then
    match s.table with
    | none => .ok (s, 0)
    | some t =>
        if "deleted_at" ∈ t.columns then .ok (s, 0)
        else .ok ({ s with table := some { t with columns := t.columns ++ ["deleted_at"] } }, 1)
  else .error .storeUnavailable

/-- Embeds `ensure_user_table_schema`: `create_all` first, then the
SQLite-only inspection/ALTER step. -/
def ensure_user_table_schema (cfg : Config) (s : Store) :
    Except StoreError (Store × Nat) :=
  match create_all s with
  | .error e => .error e
  | .ok s1 =>
      if isSqliteUrl cfg.databaseUrl then
        inspect_and_migrate s1
      else
        .ok (s1, 0)

/-- Embeds `init_db`. -/
def init_db (cfg : Config) (s : Store) : Except StoreError (Store × Nat) :=
  ensure_user_table_schema cfg s

/-- Embeds `_hash_secret(recovery_key) if recovery_key else None`: the
guard is Python truthiness, so an unset or empty recovery key yields
`None`. -/
def recoveryHashOf (rk : Option String) : Option String :=
  match rk with
  | some k => if k.isEmpty then none else some (_hash_secret k)
  | none => none

/-- Embeds lines 133-142 of `seed_admin_user`: compare email, role and
(when configured) recovery-key digest against the stored row, mutating
only the drifted fields.  Returns the row together with the `updated`
flag. -/
def reconcileExisting (cfg : Config) (admin : User) : User × Bool :=
  let (a1, u1) :=
    if admin.email = cfg.email then (admin, false)
    else ({ admin with email := cfg.email }, true)
  let (a2, u2) :=
    if a1.role = cfg.role then (a1, u1)
    else ({ a1 with role := cfg.role }, true)
  match recoveryHashOf cfg.recoveryKey with
  | some h =>
      if a2.recovery_key_hash = some h then (a2, u2)
      else ({ a2 with recovery_key_hash := some h }, true)
  | none => (a2, u2)

/-- Walk the table rows in order; at the first row whose `username`
matches (the row `select ... .first()` returns), apply
`reconcileExisting` and leave every other row unchanged.  `none` when
no row matches. -/
def reconcileRows (cfg : Config) : List User → Option (List User × Bool)
  | [] => none
  | r :: rest =>
      if r.username = cfg.username then
        some ((reconcileExisting cfg r).1 :: rest, (reconcileExisting cfg r).2)
      else
        match reconcileRows cfg rest with
        | some (rest2, upd) => some (r :: rest2, upd)
        | none => none

/-- The `User(...)` construction on lines 123-130: canonical fields,
digests computed from configuration, active flag true, `created_at`
from the clock, `id` assigned by SQLite autoincrement at commit. -/
def newAdmin (cfg : Config) (now : Nat) (nextId : Nat) : User :=
  { id := some nextId
    username := cfg.username
    email := cfg.email
    password_hash := _hash_secret cfg.password
    recovery_key_hash := recoveryHashOf cfg.recoveryKey
    role := cfg.role
    is_active := true
    created_at := now
    deleted_at := none }

/-- The session body of `seed_admin_user` (lines 119-146): the
`select(User)` reads every mapped column of the `User` model, so it
raises `OperationalError` when the live table is missing or lacks any
of `expectedColumns` (the legacy-schema crash the module docstring
documents, which `ensure_user_table_schema` remediates only for
`deleted_at`).  Otherwise: look the admin row up, update drifted
fields when present, insert the canonical row when absent; the commit
enforces the `username` uniqueness constraint against the rows present
at commit time. -/
def reconcile_admin (cfg : Config) (now : Nat) (interleaved : List User)
    (s1 : Store) (alters : Nat) : Except StoreError (Store × Stats) :=
  match s1.table with
  | none =>
      -- querying a missing table: OperationalError "no such table"
      .error .operationalError
  | some t =>
      if ∀ c ∈ expectedColumns, c ∈ t.columns then
        match reconcileRows cfg t.rows with
        | some (rows2, _updated) =>
            .ok ({ s1 with table := some { t with rows := rows2 ++ interleaved } },
                 ⟨alters, 0⟩)
        | none =>
            let committed := t.rows ++ interleaved
            if committed.any (fun r => r.username = cfg.username) then
              .error .integrityError
            else
              let rows2 := committed ++ [newAdmin cfg now (committed.length + 1)]
              .ok ({ s1 with table := some { t with rows := rows2 } },
                   ⟨alters, 1⟩)
      else
        -- a mapped column is absent from the live table:
        -- OperationalError "no such column"
        .error .operationalError

/-- Embeds `seed_admin_user`.  `now` is the clock value
`datetime.utcnow` returns for `created_at`; `interleaved` are rows a
concurrent process committed between this run's lookup and its commit
(empty in a sequential run). -/
def seed_admin_user (cfg : Config) (now : Nat) (interleaved : List User)
    (s : Store) : Except StoreError (Store × Stats) :=
  match init_db cfg s with
  | .error e => .error e
  | .ok (s1, alters) => reconcile_admin cfg now interleaved s1 alters

/-! ### Concrete fixtures

`cfg0` is the configuration `seed_admin_user` reads when no `ADMIN_*`
or `DATABASE_URL` environment variable is set: every `os.getenv`
default applies and `ADMIN_RECOVERY_KEY` is absent. -/

def cfg0 : Config :=
  ⟨"sqlite:///./app.db", "admin", "admin@example.com", "ChangeM3!", "admin", none⟩

/-- A previously stored admin row with a stale email. -/
def adminRow : User :=
  ⟨some 1, "admin", "old@example.com", "storedhash", some "storedrec",
   "admin", true, 42, none⟩

/-- An up-to-date store already holding `adminRow`. -/
def storeSeeded : Store := ⟨true, some ⟨expectedColumns, [adminRow]⟩⟩

/-- `adminRow` after the email reconcile. -/
def adminRowUpdated : User := { adminRow with email := "admin@example.com" }

def storeSeededUpd : Store := ⟨true, some ⟨expectedColumns, [adminRowUpdated]⟩⟩

/-- An admin row a concurrent bootstrap committed first. -/
def raceRow : User :=
  ⟨some 7, "admin", "race@example.com", "racehash", none, "admin", true, 0, none⟩

/-- An up-to-date store whose table holds no rows yet. -/
def storeEmptyTable : Store := ⟨true, some ⟨expectedColumns, []⟩⟩

/-- A live column set missing only `role`: a strict subset of
`expectedColumns` that already carries `deleted_at`. -/
def columnsNoRole : List String :=
  ["id", "username", "email", "password_hash", "recovery_key_hash",
   "is_active", "created_at", "deleted_at"]

def storeNoRole : Store := ⟨true, some ⟨columnsNoRole, []⟩⟩

/-- The legacy column set of the spec's §8 scenario, missing
`deleted_at` (and `recovery_key_hash`). -/
def columnsV1 : List String :=
  ["id", "username", "email", "password_hash", "role", "is_active", "created_at"]

def storeV1 : Store := ⟨true, some ⟨columnsV1, []⟩⟩

/-! ### Lemmas about the record reconcile -/

/-- A stored row agreeing with the mutable canonical fields the
reconcile compares: email, role, and the recovery digest whenever one
is configured. -/
def Canonical (cfg : Config) (a : User) : Prop :=
  a.email = cfg.email ∧ a.role = cfg.role ∧
    ∀ h, recoveryHashOf cfg.recoveryKey = some h → a.recovery_key_hash = some h

theorem reconcileExisting_frame (cfg : Config) (a : User) :
    (reconcileExisting cfg a).1.id = a.id ∧
    (reconcileExisting cfg a).1.username = a.username ∧
    (reconcileExisting cfg a).1.password_hash = a.password_hash ∧
    (reconcileExisting cfg a).1.is_active = a.is_active ∧
    (reconcileExisting cfg a).1.created_at = a.created_at ∧
    (reconcileExisting cfg a).1.deleted_at = a.deleted_at := by
  rcases hrk : recoveryHashOf cfg.recoveryKey with _ | v <;>
    by_cases h1 : a.email = cfg.email <;>
    by_cases h2 : a.role = cfg.role <;>
    simp [reconcileExisting, h1, h2, hrk] <;>
    split <;> simp

theorem reconcileExisting_canonical (cfg : Config) (a : User) :
    Canonical cfg (reconcileExisting cfg a).1 := by
  rcases hrk : recoveryHashOf cfg.recoveryKey with _ | v <;>
    by_cases h1 : a.email = cfg.email <;>
    by_cases h2 : a.role = cfg.role <;>
    simp [reconcileExisting, Canonical, h1, h2, hrk] <;>
    split <;> simp_all

theorem reconcileExisting_of_canonical (cfg : Config) (a : User)
    (h : Canonical cfg a) : reconcileExisting cfg a = (a, false) := by
  obtain ⟨h1, h2, h3⟩ := h
  rcases hrk : recoveryHashOf cfg.recoveryKey with _ | v
  · simp [reconcileExisting, h1, h2, hrk]
  · simp [reconcileExisting, h1, h2, hrk, h3 v hrk]

theorem reconcileExisting_recovery_of_none (cfg : Config) (a : User)
    (hrk : recoveryHashOf cfg.recoveryKey = none) :
    (reconcileExisting cfg a).1.recovery_key_hash = a.recovery_key_hash := by
  by_cases h1 : a.email = cfg.email <;>
    by_cases h2 : a.role = cfg.role <;>
    simp [reconcileExisting, h1, h2, hrk]

/-- `reconcileRows` misses exactly when no row carries the admin
username. -/
theorem reconcileRows_eq_none_iff (cfg : Config) (rows : List User) :
    reconcileRows cfg rows = none ↔ ∀ r ∈ rows, r.username ≠ cfg.username := by
  induction rows with
  | nil => simp [reconcileRows]
  | cons r rest ih =>
      by_cases h : r.username = cfg.username
      · simp [reconcileRows, h]
      · constructor
        · intro hn
          simp only [reconcileRows, if_neg h] at hn
          rcases hrec : reconcileRows cfg rest with _ | p
          · intro r' hr'
            rcases List.mem_cons.mp hr' with h1 | h2
            · exact h1 ▸ h
            · exact ih.mp hrec r' h2
          · obtain ⟨rest2, u⟩ := p
            rw [hrec] at hn
            simp at hn
        · intro hall
          have hrest : reconcileRows cfg rest = none :=
            ih.mpr fun r' h2 => hall r' (by simp [h2])
          simp [reconcileRows, h, hrest]

/-- On a row list whose first admin-username match is `a`,
`reconcileRows` rewrites exactly that row through `reconcileExisting`. -/
theorem reconcileRows_decomp (cfg : Config) (pre post : List User) (a : User)
    (hpre : ∀ x ∈ pre, x.username ≠ cfg.username)
    (ha : a.username = cfg.username) :
    reconcileRows cfg (pre ++ a :: post) =
      some (pre ++ (reconcileExisting cfg a).1 :: post,
            (reconcileExisting cfg a).2) := by
  induction pre with
  | nil => simp [reconcileRows, ha]
  | cons x rest ih =>
      have hx : x.username ≠ cfg.username := hpre x (by simp)
      have ih' := ih (fun y hy => hpre y (by simp [hy]))
      simp [reconcileRows, hx, ih']

/-- Inversion: a successful `reconcileRows` exhibits the first matching
row and leaves every other row alone. -/
theorem reconcileRows_inv (cfg : Config) (rows rows2 : List User) (u : Bool)
    (h : reconcileRows cfg rows = some (rows2, u)) :
    ∃ pre a post, rows = pre ++ a :: post ∧
      (∀ x ∈ pre, x.username ≠ cfg.username) ∧
      a.username = cfg.username ∧
      rows2 = pre ++ (reconcileExisting cfg a).1 :: post ∧
      u = (reconcileExisting cfg a).2 := by
  induction rows generalizing rows2 u with
  | nil => simp [reconcileRows] at h
  | cons r rest ih =>
      by_cases hr : r.username = cfg.username
      · simp only [reconcileRows, if_pos hr, Option.some.injEq, Prod.mk.injEq] at h
        exact ⟨[], r, rest, by simp, by simp, hr, by simp [h.1], by simp [h.2]⟩
      · rcases hrec : reconcileRows cfg rest with _ | p
        · simp [reconcileRows, hr, hrec] at h
        · obtain ⟨rest2, u'⟩ := p
          simp only [reconcileRows, if_neg hr, hrec, Option.some.injEq,
            Prod.mk.injEq] at h
          obtain ⟨pre, a, post, hrest, hpre, ha, hrest2, hu'⟩ := ih rest2 u' hrec
          refine ⟨r :: pre, a, post, by simp [hrest], ?_, ha, ?_, ?_⟩
          · intro x hx
            rcases List.mem_cons.mp hx with h1 | h2
            · exact h1 ▸ hr
            · exact hpre x h2
          · simp [← h.1, hrest2]
          · rw [← h.2, hu']

/-! ### Lemmas about schema bootstrap -/

theorem create_all_ok_inv (s s' : Store) (h : create_all s = .ok s') :
    s.reachable = true ∧
      ((∃ t, s.table = some t ∧ s' = s) ∨
        (s.table = none ∧ s' = ⟨true, some ⟨expectedColumns, []⟩⟩)) := by
  rcases s with ⟨r, tb⟩
  rcases r with _ | _
  · simp [create_all] at h
  · rcases tb with _ | t
    · simp only [create_all, if_true, Except.ok.injEq] at h
      exact ⟨rfl, .inr ⟨rfl, h.symm⟩⟩
    · simp only [create_all, if_true, Except.ok.injEq] at h
      exact ⟨rfl, .inl ⟨t, rfl, h.symm⟩⟩

theorem inspect_and_migrate_some (s : Store) (t : UserTable)
    (hr : s.reachable = true) (ht : s.table = some t) :
    inspect_and_migrate s =
      if "deleted_at" ∈ t.columns then .ok (s, 0)
      else .ok ({ s with table := some { t with columns := t.columns ++ ["deleted_at"] } }, 1) := by
  simp [inspect_and_migrate, hr, ht]

/-- Inversion for one `ensure_user_table_schema` run: the store stays
reachable, the table exists afterwards, it carries `deleted_at`
whenever the SQLite path was taken, rows and pre-existing columns are
preserved, and a fresh store gets exactly the expected columns. -/
theorem ensure_ok_inv (cfg : Config) (s s' : Store) (n : Nat)
    (h : ensure_user_table_schema cfg s = .ok (s', n)) :
    s.reachable = true ∧ s'.reachable = true ∧
      ∃ t', s'.table = some t' ∧
        (isSqliteUrl cfg.databaseUrl = true → "deleted_at" ∈ t'.columns) ∧
        (∀ t, s.table = some t →
          t'.rows = t.rows ∧
          (t'.columns = t.columns ∨ t'.columns = t.columns ++ ["deleted_at"])) ∧
        (s.table = none → t' = ⟨expectedColumns, []⟩) := by
  unfold ensure_user_table_schema at h
  rcases hca : create_all s with e | s1 <;> rw [hca] at h
  · simp at h
  · have h2 : (if isSqliteUrl cfg.databaseUrl = true then inspect_and_migrate s1
        else Except.ok (s1, 0)) = Except.ok (s', n) := h
    obtain ⟨hr, hcase⟩ := create_all_ok_inv s s1 hca
    rcases hcase with ⟨t, ht, rfl⟩ | ⟨ht, rfl⟩
    · rcases hsql : isSqliteUrl cfg.databaseUrl with _ | _ <;> rw [hsql] at h2
      · rw [if_neg (by simp)] at h2
        simp only [Except.ok.injEq, Prod.mk.injEq] at h2
        obtain ⟨rfl, rfl⟩ := h2
        refine ⟨hr, hr, t, ht, by simp, fun t0 ht0 => ?_, by simp [ht]⟩
        rw [ht] at ht0
        obtain rfl := Option.some.inj ht0
        exact ⟨rfl, .inl rfl⟩
      · rw [if_pos rfl, inspect_and_migrate_some _ t hr ht] at h2
        by_cases hd : "deleted_at" ∈ t.columns
        · rw [if_pos hd] at h2
          simp only [Except.ok.injEq, Prod.mk.injEq] at h2
          obtain ⟨rfl, rfl⟩ := h2
          refine ⟨hr, hr, t, ht, fun _ => hd, fun t0 ht0 => ?_, by simp [ht]⟩
          rw [ht] at ht0
          obtain rfl := Option.some.inj ht0
          exact ⟨rfl, .inl rfl⟩
        · rw [if_neg hd] at h2
          simp only [Except.ok.injEq, Prod.mk.injEq] at h2
          obtain ⟨rfl, rfl⟩ := h2
          refine ⟨hr, hr, _, rfl, fun _ => by simp, fun t0 ht0 => ?_, by simp [ht]⟩
          rw [ht] at ht0
          obtain rfl := Option.some.inj ht0
          exact ⟨rfl, .inr rfl⟩
    · rcases hsql : isSqliteUrl cfg.databaseUrl with _ | _ <;> rw [hsql] at h2
      · rw [if_neg (by simp)] at h2
        simp only [Except.ok.injEq, Prod.mk.injEq] at h2
        obtain ⟨rfl, rfl⟩ := h2
        exact ⟨hr, rfl, ⟨expectedColumns, []⟩, rfl, by decide, by simp [ht], by simp⟩
      · rw [if_pos rfl,
          inspect_and_migrate_some _ ⟨expectedColumns, []⟩ rfl rfl] at h2
        rw [if_pos (by decide)] at h2
        simp only [Except.ok.injEq, Prod.mk.injEq] at h2
        obtain ⟨rfl, rfl⟩ := h2
        exact ⟨hr, rfl, ⟨expectedColumns, []⟩, rfl, by decide, by simp [ht], by simp⟩

/-- A reachable store whose table already carries `deleted_at` (when
on SQLite) passes through `ensure_user_table_schema` unchanged, with
zero ALTER statements. -/
theorem ensure_converged (cfg : Config) (s : Store) (t : UserTable)
    (hr : s.reachable = true) (ht : s.table = some t)
    (hd : isSqliteUrl cfg.databaseUrl = true → "deleted_at" ∈ t.columns) :
    ensure_user_table_schema cfg s = .ok (s, 0) := by
  have hca : create_all s = .ok s := by
    rcases s with ⟨r, tb⟩
    simp only at hr ht
    subst hr
    rw [ht]
    simp [create_all]
  unfold ensure_user_table_schema
  rw [hca]
  rcases hsql : isSqliteUrl cfg.databaseUrl with _ | _
  · simp
  · simp [inspect_and_migrate, hr, ht, hd hsql]

/-- The session body fails with `operationalError` when the live table
lacks one of the `User` model's mapped columns: the `select(User)`
references it and SQLite rejects the query. -/
theorem reconcile_admin_missing_column (cfg : Config) (now : Nat)
    (il : List User) (s1 : Store) (alters : Nat) (t : UserTable)
    (ht : s1.table = some t)
    (hcols : ¬ ∀ c ∈ expectedColumns, c ∈ t.columns) :
    reconcile_admin cfg now il s1 alters = .error .operationalError := by
  simp only [reconcile_admin, ht]
  rw [if_neg hcols]

/-- Update path of the session body: on a table carrying every mapped
column and with the first matching row exhibited, the store is
committed with exactly that row reconciled and no INSERT issued. -/
theorem reconcile_admin_update (cfg : Config) (now : Nat) (il : List User)
    (s1 : Store) (alters : Nat) (t : UserTable) (pre post : List User) (a : User)
    (ht : s1.table = some t)
    (hcols : ∀ c ∈ expectedColumns, c ∈ t.columns)
    (hrows : t.rows = pre ++ a :: post)
    (hpre : ∀ x ∈ pre, x.username ≠ cfg.username)
    (ha : a.username = cfg.username) :
    reconcile_admin cfg now il s1 alters =
      .ok ({ s1 with table := some { t with
               rows := (pre ++ (reconcileExisting cfg a).1 :: post) ++ il } },
           ⟨alters, 0⟩) := by
  simp only [reconcile_admin, ht]
  rw [if_pos hcols, hrows, reconcileRows_decomp cfg pre post a hpre ha]

/-- Insert path of the session body, no concurrent conflict: on a
table carrying every mapped column, the canonical admin row is
appended and one INSERT issued. -/
theorem reconcile_admin_insert (cfg : Config) (now : Nat) (il : List User)
    (s1 : Store) (alters : Nat) (t : UserTable)
    (ht : s1.table = some t)
    (hcols : ∀ c ∈ expectedColumns, c ∈ t.columns)
    (hnone : ∀ r ∈ t.rows, r.username ≠ cfg.username)
    (hil : ∀ r ∈ il, r.username ≠ cfg.username) :
    reconcile_admin cfg now il s1 alters =
      .ok ({ s1 with table := some { t with
               rows := (t.rows ++ il) ++
                 [newAdmin cfg now ((t.rows ++ il).length + 1)] } },
           ⟨alters, 1⟩) := by
  simp only [reconcile_admin, ht]
  rw [if_pos hcols, (reconcileRows_eq_none_iff cfg t.rows).mpr hnone]
  have hany : (t.rows ++ il).any (fun r => r.username = cfg.username) = false := by
    simp only [List.any_eq_false, decide_eq_true_eq]
    intro r hrmem
    rcases List.mem_append.mp hrmem with hm | hm
    · exact hnone r hm
    · exact hil r hm
  simp only [hany, Bool.false_eq_true, if_false]

/-- Insert path of the session body, concurrent conflict: on a table
carrying every mapped column, the uniqueness violation surfaces as
`integrityError`. -/
theorem reconcile_admin_conflict (cfg : Config) (now : Nat) (il : List User)
    (s1 : Store) (alters : Nat) (t : UserTable)
    (ht : s1.table = some t)
    (hcols : ∀ c ∈ expectedColumns, c ∈ t.columns)
    (hnone : ∀ r ∈ t.rows, r.username ≠ cfg.username)
    (hil : ∃ r ∈ il, r.username = cfg.username) :
    reconcile_admin cfg now il s1 alters = .error .integrityError := by
  simp only [reconcile_admin, ht]
  rw [if_pos hcols, (reconcileRows_eq_none_iff cfg t.rows).mpr hnone]
  obtain ⟨r, hrmem, hru⟩ := hil
  have hany : (t.rows ++ il).any (fun r => r.username = cfg.username) = true := by
    simp only [List.any_eq_true, decide_eq_true_eq]
    exact ⟨r, List.mem_append.mpr (.inr hrmem), hru⟩
  simp only [hany, if_true]

theorem store_eta (s : Store) (t : UserTable) (ht : s.table = some t) :
    ({ s with table := some t } : Store) = s := by
  rcases s with ⟨r, tb⟩
  simp only at ht
  rw [ht]

/-- A reachable store with an existing table never fails
`ensure_user_table_schema`. -/
theorem ensure_ok_of_reachable_some (cfg : Config) (s : Store) (t : UserTable)
    (hr : s.reachable = true) (ht : s.table = some t) :
    ∃ s1 n, ensure_user_table_schema cfg s = .ok (s1, n) := by
  have hca : create_all s = .ok s := by
    rcases s with ⟨r, tb⟩
    simp only at hr ht
    subst hr
    rw [ht]
    simp [create_all]
  unfold ensure_user_table_schema
  rw [hca]
  show ∃ s1 n, (if isSqliteUrl cfg.databaseUrl = true then inspect_and_migrate s
      else Except.ok (s, 0)) = Except.ok (s1, n)
  rcases hsql : isSqliteUrl cfg.databaseUrl with _ | _
  · exact ⟨s, 0, by simp⟩
  · rw [if_pos rfl, inspect_and_migrate_some s t hr ht]
    by_cases hd : "deleted_at" ∈ t.columns
    · exact ⟨s, 0, by rw [if_pos hd]⟩
    · exact ⟨_, 1, by rw [if_neg hd]⟩

/-- With a stale email and every other canonical field matching,
`reconcileExisting` rewrites exactly the email field. -/
theorem reconcileExisting_email_only (cfg : Config) (a : User)
    (hemail : a.email ≠ cfg.email) (hrole : a.role = cfg.role)
    (hrec : ∀ v, recoveryHashOf cfg.recoveryKey = some v →
      a.recovery_key_hash = some v) :
    reconcileExisting cfg a = ({ a with email := cfg.email }, true) := by
  rcases hrk : recoveryHashOf cfg.recoveryKey with _ | v
  · simp [reconcileExisting, hemail, hrole, hrk]
  · simp [reconcileExisting, hemail, hrole, hrk, hrec v hrk]

/-- Postcondition of a sequential `seed_admin_user` run: the final
table exists, carries `deleted_at` on the SQLite path, and holds a
first-match admin row agreeing with the canonical configuration. -/
theorem seed_ok_post (cfg : Config) (now : Nat) (s s' : Store) (st : Stats)
    (h : seed_admin_user cfg now [] s = .ok (s', st)) :
    s'.reachable = true ∧ ∃ t', s'.table = some t' ∧
      (isSqliteUrl cfg.databaseUrl = true → "deleted_at" ∈ t'.columns) ∧
      (∀ c ∈ expectedColumns, c ∈ t'.columns) ∧
      ∃ pre a post, t'.rows = pre ++ a :: post ∧
        (∀ x ∈ pre, x.username ≠ cfg.username) ∧
        a.username = cfg.username ∧ Canonical cfg a := by
  unfold seed_admin_user at h
  rcases hid : init_db cfg s with e | p <;> rw [hid] at h
  · simp at h
  · obtain ⟨sm, alters⟩ := p
    have h2 : reconcile_admin cfg now [] sm alters = Except.ok (s', st) := h
    obtain ⟨-, hrm, tm, htm, hdm, -, -⟩ := ensure_ok_inv cfg s sm alters hid
    by_cases hcols : ∀ c ∈ expectedColumns, c ∈ tm.columns
    · rcases hrec : reconcileRows cfg tm.rows with _ | q
      · have hnone := (reconcileRows_eq_none_iff cfg tm.rows).mp hrec
        rw [reconcile_admin_insert cfg now [] sm alters tm htm hcols hnone
          (by simp)] at h2
        simp only [Except.ok.injEq, Prod.mk.injEq] at h2
        obtain ⟨rfl, rfl⟩ := h2
        refine ⟨hrm, _, rfl, hdm, hcols, tm.rows ++ [], newAdmin cfg now _, [],
          rfl, ?_, rfl, rfl, rfl, ?_⟩
        · intro x hx
          exact hnone x (by simpa using hx)
        · intro v hv
          simpa [newAdmin] using hv
      · obtain ⟨rows2, u⟩ := q
        obtain ⟨pre, a, post, hrows, hpre, ha, hrows2, -⟩ :=
          reconcileRows_inv cfg tm.rows rows2 u hrec
        rw [reconcile_admin_update cfg now [] sm alters tm pre post a htm hcols
          hrows hpre ha] at h2
        simp only [Except.ok.injEq, Prod.mk.injEq] at h2
        obtain ⟨rfl, rfl⟩ := h2
        refine ⟨hrm, _, rfl, hdm, hcols, pre, (reconcileExisting cfg a).1, post,
          by simp, hpre, ?_, reconcileExisting_canonical cfg a⟩
        rw [(reconcileExisting_frame cfg a).2.1, ha]
    · rw [reconcile_admin_missing_column cfg now [] sm alters tm htm hcols] at h2
      simp at h2

/-- A converged store (schema up to date, first-match admin row
canonical) passes through `seed_admin_user` unchanged with zero ALTER
and zero INSERT statements. -/
theorem seed_converged (cfg : Config) (now : Nat) (s' : Store) (t' : UserTable)
    (pre post : List User) (a : User)
    (hr : s'.reachable = true) (ht : s'.table = some t')
    (hd : isSqliteUrl cfg.databaseUrl = true → "deleted_at" ∈ t'.columns)
    (hcols : ∀ c ∈ expectedColumns, c ∈ t'.columns)
    (hrows : t'.rows = pre ++ a :: post)
    (hpre : ∀ x ∈ pre, x.username ≠ cfg.username)
    (ha : a.username = cfg.username) (hc : Canonical cfg a) :
    seed_admin_user cfg now [] s' = .ok (s', ⟨0, 0⟩) := by
  have hens : init_db cfg s' = .ok (s', 0) := ensure_converged cfg s' t' hr ht hd
  simp only [seed_admin_user, init_db] at hens ⊢
  rw [hens]
  show reconcile_admin cfg now [] s' 0 = Except.ok (s', ⟨0, 0⟩)
  rw [reconcile_admin_update cfg now [] s' 0 t' pre post a ht hcols hrows hpre ha,
    reconcileExisting_of_canonical cfg a hc]
  have hrows' : (pre ++ (a, false).1 :: post) ++ [] = t'.rows := by
    simp [hrows]
  rw [hrows']
  have ht'eta : ({ t' with rows := t'.rows } : UserTable) = t' := by
    rcases t' with ⟨c, r⟩
    rfl
  rw [ht'eta, store_eta s' t' ht]

/-- Running `seed_admin_user` on an empty store: the table is created
with the expected columns and the canonical admin row is inserted. -/
theorem seed_fresh_eq (cfg : Config) (now : Nat) :
    seed_admin_user cfg now [] ⟨true, none⟩ =
      .ok (⟨true, some ⟨expectedColumns, [newAdmin cfg now 1]⟩⟩, ⟨0, 1⟩) := by
  have hens : init_db cfg ⟨true, none⟩ =
      .ok (⟨true, some ⟨expectedColumns, []⟩⟩, 0) := by
    unfold init_db ensure_user_table_schema
    have hca : create_all ⟨true, none⟩ =
        .ok ⟨true, some ⟨expectedColumns, []⟩⟩ := rfl
    rw [hca]
    show (if isSqliteUrl cfg.databaseUrl = true then
        inspect_and_migrate ⟨true, some ⟨expectedColumns, []⟩⟩
      else Except.ok (⟨true, some ⟨expectedColumns, []⟩⟩, 0)) =
      Except.ok (⟨true, some ⟨expectedColumns, []⟩⟩, 0)
    rcases hsql : isSqliteUrl cfg.databaseUrl with _ | _
    · simp
    · rw [if_pos rfl,
        inspect_and_migrate_some _ ⟨expectedColumns, []⟩ rfl rfl,
        if_pos (by decide)]
  simp only [seed_admin_user, init_db] at hens ⊢
  rw [hens]
  show reconcile_admin cfg now [] ⟨true, some ⟨expectedColumns, []⟩⟩ 0 =
    Except.ok (⟨true, some ⟨expectedColumns, [newAdmin cfg now 1]⟩⟩, ⟨0, 1⟩)
  rw [reconcile_admin_insert cfg now [] _ 0 ⟨expectedColumns, []⟩ rfl
    (fun c hc => hc) (by simp) (by simp)]
  rfl

/-! ### Claims -/

/-- C1: running the full bootstrap sequence (`seed_admin_user`, which
runs `ensure_user_table_schema` then the admin-record reconcile) twice
against the same store state produces identical final table schema and
identical final privileged-record field values, and the second run
issues zero ALTER or INSERT statements. -/
theorem seed_admin_user_idempotent (cfg : Config) (now1 now2 : Nat)
    (s s1 : Store) (st1 : Stats)
    (h : seed_admin_user cfg now1 [] s = .ok (s1, st1)) :
    seed_admin_user cfg now2 [] s1 = .ok (s1, ⟨0, 0⟩) := by
  obtain ⟨hr1, t1, ht1, hd1, hcols1, pre, a, post, hrows, hpre, ha, hc⟩ :=
    seed_ok_post cfg now1 s s1 st1 h
  exact seed_converged cfg now2 s1 t1 pre post a hr1 ht1 hd1 hcols1 hrows hpre ha hc

theorem seed_admin_user_idempotent_witness :
    seed_admin_user cfg0 0 [] ⟨true, none⟩ =
      .ok (⟨true, some ⟨expectedColumns, [newAdmin cfg0 0 1]⟩⟩, ⟨0, 1⟩) ∧
    seed_admin_user cfg0 1 [] ⟨true, some ⟨expectedColumns, [newAdmin cfg0 0 1]⟩⟩ =
      .ok (⟨true, some ⟨expectedColumns, [newAdmin cfg0 0 1]⟩⟩, ⟨0, 0⟩) :=
  ⟨rfl, seed_admin_user_idempotent cfg0 0 1 ⟨true, none⟩
    ⟨true, some ⟨expectedColumns, [newAdmin cfg0 0 1]⟩⟩ ⟨0, 1⟩ rfl⟩

/-- C2 counterexample: `storeNoRole`'s live column set is a strict
subset of the expected set (it lacks `role`), yet
`ensure_user_table_schema` leaves the table unchanged, so the expected
column `role` is still absent afterwards: the migration step does not
add every column of `expectedColumns − liveColumns`. -/
theorem ensure_user_table_schema_missing_role_not_added :
    (∀ c ∈ columnsNoRole, c ∈ expectedColumns) ∧
    "role" ∈ expectedColumns ∧ "role" ∉ columnsNoRole ∧
    ensure_user_table_schema cfg0 storeNoRole = .ok (storeNoRole, 0) ∧
    ∀ t, storeNoRole.table = some t → "role" ∉ t.columns :=
  ⟨by decide, by decide, by decide, rfl, by decide⟩

/-- C2 amended: for every pre-existing table the schema-migration step
only reconciles the `deleted_at` column — it returns with `deleted_at`
present (appending it as a nullable column when missing) and leaves
the rest of the column set exactly as found, so expected columns other
than `deleted_at` that are missing from the live table are not added. -/
theorem ensure_user_table_schema_adds_only_deleted_at (cfg : Config)
    (s : Store) (t : UserTable)
    (hr : s.reachable = true) (ht : s.table = some t) :
    ∃ t' n, ensure_user_table_schema cfg s = .ok ({ s with table := some t' }, n) ∧
      t'.rows = t.rows ∧
      (isSqliteUrl cfg.databaseUrl = true → "deleted_at" ∈ t'.columns) ∧
      (t'.columns = t.columns ∨ t'.columns = t.columns ++ ["deleted_at"]) := by
  obtain ⟨s1, n, hens⟩ := ensure_ok_of_reachable_some cfg s t hr ht
  obtain ⟨-, hr1, t', ht', hd, hpres, -⟩ := ensure_ok_inv cfg s s1 n hens
  obtain ⟨hrows, hcols⟩ := hpres t ht
  have hs1 : ({ s with table := some t' } : Store) = s1 := by
    rcases s1 with ⟨r1, tb1⟩
    simp only at ht' hr1
    rw [ht'] at *
    show Store.mk s.reachable (some t') = Store.mk r1 (some t')
    rw [hr, hr1]
  rw [← hs1] at hens
  exact ⟨t', n, hens, hrows, hd, hcols⟩

theorem ensure_user_table_schema_adds_only_deleted_at_witness :
    storeV1.reachable = true ∧
    storeV1.table = some ⟨columnsV1, []⟩ ∧
    (∃ t' n, ensure_user_table_schema cfg0 storeV1 =
        .ok ({ storeV1 with table := some t' }, n) ∧
      t'.rows = (⟨columnsV1, []⟩ : UserTable).rows ∧
      (isSqliteUrl cfg0.databaseUrl = true → "deleted_at" ∈ t'.columns) ∧
      (t'.columns = columnsV1 ∨ t'.columns = columnsV1 ++ ["deleted_at"])) :=
  ⟨rfl, rfl,
   ensure_user_table_schema_adds_only_deleted_at cfg0 storeV1 ⟨columnsV1, []⟩ rfl rfl⟩

/-- C3: bootstrapping an empty store creates the `user` table with
exactly the expected columns and exactly one privileged record whose
fields equal the configured canonical values, whose `password_hash`
equals `_hash_secret` of the configured password, and whose
`is_active` flag is true. -/
theorem seed_admin_user_fresh_store (cfg : Config) (now : Nat) :
    seed_admin_user cfg now [] ⟨true, none⟩ =
      .ok (⟨true, some ⟨expectedColumns,
        [{ id := some 1
           username := cfg.username
           email := cfg.email
           password_hash := _hash_secret cfg.password
           recovery_key_hash := recoveryHashOf cfg.recoveryKey
           role := cfg.role
           is_active := true
           created_at := now
           deleted_at := none }]⟩⟩, ⟨0, 1⟩) :=
  seed_fresh_eq cfg now

/-- C4: no bootstrap run ever removes a column from the table or
deletes a record — every starting column remains present (in
particular columns outside the expected set are untouched), the row
count never decreases, and every starting row is still present, keyed
by its `id` and `username`. -/
theorem seed_admin_user_nondestructive (cfg : Config) (now : Nat)
    (il : List User) (s s' : Store) (st : Stats) (t : UserTable)
    (h : seed_admin_user cfg now il s = .ok (s', st)) (ht : s.table = some t) :
    ∃ t', s'.table = some t' ∧
      (∀ c ∈ t.columns, c ∈ t'.columns) ∧
      t.rows.length ≤ t'.rows.length ∧
      ∀ r ∈ t.rows, ∃ r' ∈ t'.rows, r'.id = r.id ∧ r'.username = r.username := by
  unfold seed_admin_user at h
  rcases hid : init_db cfg s with e | p <;> rw [hid] at h
  · simp at h
  · obtain ⟨sm, alters⟩ := p
    have h2 : reconcile_admin cfg now il sm alters = Except.ok (s', st) := h
    obtain ⟨-, -, tm, htm, -, hpres, -⟩ := ensure_ok_inv cfg s sm alters hid
    obtain ⟨hrowsm, hcols⟩ := hpres t ht
    have hcolsub : ∀ c ∈ t.columns, c ∈ tm.columns := by
      rcases hcols with hc | hc <;> rw [hc] <;> intro c hcm <;> simp [hcm]
    by_cases hcolsM : ∀ c ∈ expectedColumns, c ∈ tm.columns
    · rcases hrec : reconcileRows cfg tm.rows with _ | q
      · have hnone := (reconcileRows_eq_none_iff cfg tm.rows).mp hrec
        by_cases hil : ∃ r ∈ il, r.username = cfg.username
        · rw [reconcile_admin_conflict cfg now il sm alters tm htm hcolsM
            hnone hil] at h2
          simp at h2
        · push_neg at hil
          rw [reconcile_admin_insert cfg now il sm alters tm htm hcolsM
            hnone hil] at h2
          simp only [Except.ok.injEq, Prod.mk.injEq] at h2
          obtain ⟨rfl, rfl⟩ := h2
          refine ⟨_, rfl, hcolsub, ?_, ?_⟩
          · rw [← hrowsm]
            simp only [List.length_append, List.length_cons]
            omega
          · intro r hrmem
            have hin : r ∈ tm.rows := hrowsm.symm ▸ hrmem
            exact ⟨r, by simp [hin], rfl, rfl⟩
      · obtain ⟨rows2, u⟩ := q
        obtain ⟨pre, a, post, hdec, hpre, ha, hrows2, -⟩ :=
          reconcileRows_inv cfg tm.rows rows2 u hrec
        rw [reconcile_admin_update cfg now il sm alters tm pre post a htm
          hcolsM hdec hpre ha] at h2
        simp only [Except.ok.injEq, Prod.mk.injEq] at h2
        obtain ⟨rfl, rfl⟩ := h2
        refine ⟨_, rfl, hcolsub, ?_, ?_⟩
        · rw [← hrowsm, hdec]
          simp
        · intro r hrmem
          rw [← hrowsm, hdec] at hrmem
          rcases List.mem_append.mp hrmem with hm | hm
          · exact ⟨r, by simp [hm], rfl, rfl⟩
          · rcases List.mem_cons.mp hm with rfl | hm
            · exact ⟨(reconcileExisting cfg r).1, by simp,
                (reconcileExisting_frame cfg r).1,
                (reconcileExisting_frame cfg r).2.1⟩
            · exact ⟨r, by simp [hm], rfl, rfl⟩
    · rw [reconcile_admin_missing_column cfg now il sm alters tm htm hcolsM] at h2
      simp at h2

theorem seed_admin_user_nondestructive_witness :
    seed_admin_user cfg0 0 [] storeSeeded = .ok (storeSeededUpd, ⟨0, 0⟩) ∧
    storeSeeded.table = some ⟨expectedColumns, [adminRow]⟩ ∧
    (∃ t', storeSeededUpd.table = some t' ∧
      (∀ c ∈ expectedColumns, c ∈ t'.columns) ∧
      [adminRow].length ≤ t'.rows.length ∧
      ∀ r ∈ [adminRow], ∃ r' ∈ t'.rows, r'.id = r.id ∧ r'.username = r.username) :=
  ⟨rfl, rfl,
   seed_admin_user_nondestructive cfg0 0 [] storeSeeded storeSeededUpd ⟨0, 0⟩
     ⟨expectedColumns, [adminRow]⟩ rfl rfl⟩

/-- C5: when the privileged record already exists (first row matching
the configured username), re-running `seed_admin_user` issues no
INSERT and never writes the record's `password_hash` — for every
configured plaintext password the stored digest, `id`, `username` and
`created_at` are unchanged. -/
theorem seed_admin_user_preserves_password_hash (cfg : Config) (now : Nat)
    (s s' : Store) (st : Stats) (t : UserTable) (pre post : List User) (a : User)
    (h : seed_admin_user cfg now [] s = .ok (s', st))
    (ht : s.table = some t) (hrows : t.rows = pre ++ a :: post)
    (hpre : ∀ x ∈ pre, x.username ≠ cfg.username)
    (ha : a.username = cfg.username) :
    st.inserts = 0 ∧
    ∃ t' a', s'.table = some t' ∧ t'.rows = pre ++ a' :: post ∧
      a'.username = a.username ∧ a'.id = a.id ∧
      a'.password_hash = a.password_hash ∧ a'.created_at = a.created_at := by
  unfold seed_admin_user at h
  rcases hid : init_db cfg s with e | p <;> rw [hid] at h
  · simp at h
  · obtain ⟨sm, alters⟩ := p
    have h2 : reconcile_admin cfg now [] sm alters = Except.ok (s', st) := h
    obtain ⟨-, -, tm, htm, -, hpres, -⟩ := ensure_ok_inv cfg s sm alters hid
    obtain ⟨hrowsm, -⟩ := hpres t ht
    by_cases hcolsM : ∀ c ∈ expectedColumns, c ∈ tm.columns
    · rw [reconcile_admin_update cfg now [] sm alters tm pre post a htm hcolsM
        (hrowsm.trans hrows) hpre ha] at h2
      simp only [Except.ok.injEq, Prod.mk.injEq] at h2
      obtain ⟨rfl, rfl⟩ := h2
      obtain ⟨hid', hun, hpw, -, hca, -⟩ := reconcileExisting_frame cfg a
      exact ⟨rfl, _, (reconcileExisting cfg a).1, rfl, by simp, hun, hid', hpw, hca⟩
    · rw [reconcile_admin_missing_column cfg now [] sm alters tm htm hcolsM] at h2
      simp at h2

theorem seed_admin_user_preserves_password_hash_witness :
    seed_admin_user cfg0 0 [] storeSeeded = .ok (storeSeededUpd, ⟨0, 0⟩) ∧
    storeSeeded.table = some ⟨expectedColumns, [adminRow]⟩ ∧
    adminRow.username = cfg0.username ∧
    ((⟨0, 0⟩ : Stats).inserts = 0 ∧
      ∃ t' a', storeSeededUpd.table = some t' ∧ t'.rows = [] ++ a' :: [] ∧
        a'.username = adminRow.username ∧ a'.id = adminRow.id ∧
        a'.password_hash = adminRow.password_hash ∧
        a'.created_at = adminRow.created_at) :=
  ⟨rfl, rfl, rfl,
   seed_admin_user_preserves_password_hash cfg0 0 storeSeeded storeSeededUpd
     ⟨0, 0⟩ ⟨expectedColumns, [adminRow]⟩ [] [] adminRow rfl rfl rfl
     (by simp) rfl⟩

/-- C6: given an existing privileged record whose stored email differs
from the newly configured email while every other configured value
matches the stored one — the live table carrying every mapped column,
as it does on any store the program can read the record from without
an `OperationalError` — re-running `seed_admin_user` updates only the
email field: the final row list is the original one with exactly that
row's email replaced, so `password_hash`, `created_at` and every other
stored field are unchanged, and no INSERT is issued. -/
theorem seed_admin_user_email_drift_only (cfg : Config) (now : Nat)
    (s : Store) (t : UserTable) (pre post : List User) (a : User)
    (hr : s.reachable = true) (ht : s.table = some t)
    (hcols : ∀ c ∈ expectedColumns, c ∈ t.columns)
    (hrows : t.rows = pre ++ a :: post)
    (hpre : ∀ x ∈ pre, x.username ≠ cfg.username)
    (ha : a.username = cfg.username)
    (hemail : a.email ≠ cfg.email) (hrole : a.role = cfg.role)
    (hrec : ∀ v, recoveryHashOf cfg.recoveryKey = some v →
      a.recovery_key_hash = some v) :
    ∃ s' n t', seed_admin_user cfg now [] s = .ok (s', ⟨n, 0⟩) ∧
      s'.table = some t' ∧
      t'.rows = pre ++ { a with email := cfg.email } :: post := by
  obtain ⟨s1, n, hens⟩ := ensure_ok_of_reachable_some cfg s t hr ht
  obtain ⟨-, -, t1, ht1, -, hpres, -⟩ := ensure_ok_inv cfg s s1 n hens
  obtain ⟨hrows1, hcolsor⟩ := hpres t ht
  have hcols1 : ∀ c ∈ expectedColumns, c ∈ t1.columns := by
    rcases hcolsor with hc | hc <;> rw [hc] <;> intro c hcm <;>
      simp [hcols c hcm]
  have hstep : seed_admin_user cfg now [] s =
      .ok ({ s1 with table := some { t1 with
               rows := (pre ++ ({ a with email := cfg.email }) :: post) ++ [] } },
           ⟨n, 0⟩) := by
    simp only [seed_admin_user, init_db] at hens ⊢
    rw [hens]
    show reconcile_admin cfg now [] s1 n = _
    rw [reconcile_admin_update cfg now [] s1 n t1 pre post a ht1 hcols1
      (hrows1.trans hrows) hpre ha,
      reconcileExisting_email_only cfg a hemail hrole hrec]
  exact ⟨_, n, _, hstep, rfl, by simp⟩

theorem seed_admin_user_email_drift_only_witness :
    storeSeeded.reachable = true ∧
    storeSeeded.table = some ⟨expectedColumns, [adminRow]⟩ ∧
    (∀ c ∈ expectedColumns,
      c ∈ (⟨expectedColumns, [adminRow]⟩ : UserTable).columns) ∧
    adminRow.username = cfg0.username ∧
    adminRow.email ≠ cfg0.email ∧ adminRow.role = cfg0.role ∧
    (∃ s' n t', seed_admin_user cfg0 0 [] storeSeeded = .ok (s', ⟨n, 0⟩) ∧
      s'.table = some t' ∧
      t'.rows = [] ++ { adminRow with email := cfg0.email } :: []) :=
  ⟨rfl, rfl, fun c hc => hc, rfl, by decide, rfl,
   seed_admin_user_email_drift_only cfg0 0 storeSeeded
     ⟨expectedColumns, [adminRow]⟩ [] [] adminRow rfl rfl (fun c hc => hc)
     rfl (by simp) rfl (by decide) rfl
     (fun v hv => by simp [recoveryHashOf, cfg0] at hv)⟩

/-- C7 counterexample: a concurrent bootstrap inserted the admin row
between this run's lookup and its insert; `seed_admin_user` does not
treat the uniqueness violation as "record already exists" and does not
retry via the update path — the error propagates as fatal. -/
theorem seed_admin_user_race_counterexample :
    raceRow.username = cfg0.username ∧
    seed_admin_user cfg0 0 [raceRow] storeEmptyTable = .error .integrityError :=
  ⟨rfl, rfl⟩

/-- C7 amended: when the insert of the privileged record hits a
uniqueness violation (a concurrent bootstrap inserted a row with the
configured username between lookup and commit, on a table carrying
every mapped column so that the lookup itself succeeds),
`seed_admin_user` propagates the violation as a fatal `integrityError`
instead of retrying via the update path. -/
theorem seed_admin_user_insert_conflict_propagates (cfg : Config) (now : Nat)
    (il : List User) (s : Store) (t : UserTable)
    (hr : s.reachable = true) (ht : s.table = some t)
    (hcols : ∀ c ∈ expectedColumns, c ∈ t.columns)
    (hnone : ∀ r ∈ t.rows, r.username ≠ cfg.username)
    (hconf : ∃ r ∈ il, r.username = cfg.username) :
    seed_admin_user cfg now il s = .error .integrityError := by
  obtain ⟨s1, n, hens⟩ := ensure_ok_of_reachable_some cfg s t hr ht
  obtain ⟨-, -, t1, ht1, -, hpres, -⟩ := ensure_ok_inv cfg s s1 n hens
  obtain ⟨hrows1, hcolsor⟩ := hpres t ht
  have hcols1 : ∀ c ∈ expectedColumns, c ∈ t1.columns := by
    rcases hcolsor with hc | hc <;> rw [hc] <;> intro c hcm <;>
      simp [hcols c hcm]
  simp only [seed_admin_user, init_db] at hens ⊢
  rw [hens]
  show reconcile_admin cfg now il s1 n = .error .integrityError
  exact reconcile_admin_conflict cfg now il s1 n t1 ht1 hcols1
    (fun r hm => hnone r (hrows1 ▸ hm)) hconf

theorem seed_admin_user_insert_conflict_propagates_witness :
    storeEmptyTable.reachable = true ∧
    storeEmptyTable.table = some ⟨expectedColumns, []⟩ ∧
    (∀ c ∈ expectedColumns,
      c ∈ (⟨expectedColumns, []⟩ : UserTable).columns) ∧
    raceRow.username = cfg0.username ∧
    seed_admin_user cfg0 5 [raceRow] storeEmptyTable = .error .integrityError :=
  ⟨rfl, rfl, fun c hc => hc, rfl,
   seed_admin_user_insert_conflict_propagates cfg0 5 [raceRow] storeEmptyTable
     ⟨expectedColumns, []⟩ rfl rfl (fun c hc => hc) (by simp)
     ⟨raceRow, by simp, rfl⟩⟩

/-- C8: inspecting the schema of a table that does not exist yields an
empty result and returns normally — no error and no ALTER — while a
store-unreachable failure surfaces as a `storeUnavailable` error. -/
theorem inspect_and_migrate_absent_or_unreachable (s : Store) :
    (s.reachable = true → s.table = none → inspect_and_migrate s = .ok (s, 0)) ∧
    (s.reachable = false →
      inspect_and_migrate s = .error .storeUnavailable) := by
  constructor
  · intro hr ht
    simp [inspect_and_migrate, hr, ht]
  · intro hr
    simp [inspect_and_migrate, hr]

theorem inspect_and_migrate_absent_or_unreachable_witness :
    inspect_and_migrate ⟨true, none⟩ = .ok (⟨true, none⟩, 0) ∧
    inspect_and_migrate ⟨false, none⟩ = .error .storeUnavailable :=
  ⟨(inspect_and_migrate_absent_or_unreachable ⟨true, none⟩).1 rfl rfl,
   (inspect_and_migrate_absent_or_unreachable ⟨false, none⟩).2 rfl⟩

/-- C9: `_hash_secret` is a pure deterministic function — it consumes
nothing but its argument, so equal plaintext inputs always yield equal
digests across evaluations. -/
theorem hash_secret_deterministic (a b : String) (h : a = b) :
    _hash_secret a = _hash_secret b := by
  rw [h]

theorem hash_secret_deterministic_witness :
    ("ChangeM3!" : String) = "ChangeM3!" ∧
      _hash_secret "ChangeM3!" = _hash_secret "ChangeM3!" :=
  ⟨rfl, hash_secret_deterministic "ChangeM3!" "ChangeM3!" rfl⟩

/-- C10: with no recovery secret configured (`ADMIN_RECOVERY_KEY`
unset), `seed_admin_user` leaves an existing record's stored
`recovery_key_hash` unchanged — it is never cleared — and a newly
created record gets `recovery_key_hash` equal to `none`. -/
theorem seed_admin_user_recovery_key_unset (cfg : Config)
    (hrk : cfg.recoveryKey = none) :
    (∀ now s s' st t t' pre a post,
        seed_admin_user cfg now [] s = .ok (s', st) →
        s.table = some t → s'.table = some t' →
        t.rows = pre ++ a :: post →
        (∀ x ∈ pre, x.username ≠ cfg.username) →
        a.username = cfg.username →
        ∃ a', t'.rows = pre ++ a' :: post ∧
          a'.recovery_key_hash = a.recovery_key_hash) ∧
    (∀ now, seed_admin_user cfg now [] ⟨true, none⟩ =
        .ok (⟨true, some ⟨expectedColumns, [newAdmin cfg now 1]⟩⟩, ⟨0, 1⟩) ∧
      (newAdmin cfg now 1).recovery_key_hash = none) := by
  have hrh : recoveryHashOf cfg.recoveryKey = none := by
    simp [recoveryHashOf, hrk]
  constructor
  · intro now s s' st t t' pre a post h ht ht' hrows hpre ha
    unfold seed_admin_user at h
    rcases hid : init_db cfg s with e | p <;> rw [hid] at h
    · simp at h
    · obtain ⟨sm, alters⟩ := p
      have h2 : reconcile_admin cfg now [] sm alters = Except.ok (s', st) := h
      obtain ⟨-, -, tm, htm, -, hpres, -⟩ := ensure_ok_inv cfg s sm alters hid
      obtain ⟨hrowsm, -⟩ := hpres t ht
      by_cases hcolsM : ∀ c ∈ expectedColumns, c ∈ tm.columns
      · rw [reconcile_admin_update cfg now [] sm alters tm pre post a htm
          hcolsM (hrowsm.trans hrows) hpre ha] at h2
        simp only [Except.ok.injEq, Prod.mk.injEq] at h2
        obtain ⟨rfl, rfl⟩ := h2
        simp only at ht'
        obtain rfl := Option.some.inj ht'
        exact ⟨(reconcileExisting cfg a).1, by simp,
          reconcileExisting_recovery_of_none cfg a hrh⟩
      · rw [reconcile_admin_missing_column cfg now [] sm alters tm htm
          hcolsM] at h2
        simp at h2
  · intro now
    exact ⟨seed_fresh_eq cfg now, by simp [newAdmin, hrh]⟩

theorem seed_admin_user_recovery_key_unset_witness :
    cfg0.recoveryKey = none ∧
    ((∃ a', (⟨expectedColumns, [adminRowUpdated]⟩ : UserTable).rows =
        [] ++ a' :: [] ∧
      a'.recovery_key_hash = adminRow.recovery_key_hash) ∧
     (seed_admin_user cfg0 3 [] ⟨true, none⟩ =
        .ok (⟨true, some ⟨expectedColumns, [newAdmin cfg0 3 1]⟩⟩, ⟨0, 1⟩) ∧
      (newAdmin cfg0 3 1).recovery_key_hash = none)) :=
  ⟨rfl,
   (seed_admin_user_recovery_key_unset cfg0 rfl).1 0 storeSeeded storeSeededUpd
     ⟨0, 0⟩ ⟨expectedColumns, [adminRow]⟩ ⟨expectedColumns, [adminRowUpdated]⟩
     [] adminRow [] rfl rfl rfl rfl (by simp) rfl,
   (seed_admin_user_recovery_key_unset cfg0 rfl).2 3⟩

end SuperLuca

